import Mathlib

/-!
Shallow embedding of the checkpoint / retry / extraction logic of the
Google-Maps scraper (20251105 GMaps Scraper/get_place_data.py) and the
social-media scraper (20251105 Socials Scraper/social_media_scraper.py),
together with proofs settling the frozen claims about them.

Strings are modelled as lists of characters wherever the Python code
manipulates them, so that every definition evaluates by kernel reduction.
-/

/-- Generic substring test: needle occurs somewhere in hay.  Models the
Python expression needle in hay on strings. -/
def containsSub (hay needle : List Char) : Bool :=
  hay.tails.any (fun t => needle.isPrefixOf t)

/-- Model of Python str.strip(): remove leading and trailing whitespace. -/
def stripChars (l : List Char) : List Char :=
  ((l.dropWhile Char.isWhitespace).reverse.dropWhile Char.isWhitespace).reverse

/- ===================================================================
   read_links_from_file  (get_place_data.py lines 96-106)
   =================================================================== -/

/-- Model of list(dict.fromkeys(links)): deduplicate keeping the first
occurrence of each element, preserving order. -/
def dedupeFirst : List String → List String
  | [] => []
  | x :: xs => x :: dedupeFirst (xs.filter (fun y => y ≠ x))
termination_by l => l.length
decreasing_by
  simp only [List.length_cons]
  exact Nat.lt_succ_of_le (List.length_filter_le _ xs)

/-- Line list of read_links_from_file before deduplication
(get_place_data.py line 100): strip each line and drop blank lines. -/
def cleanedLinks (lines : List String) : List String :=
  (lines.map (fun s => String.mk (stripChars s.data))).filter (fun s => s ≠ "")

/-- Core of read_links_from_file (get_place_data.py lines 96-106): strip
each line, drop blank lines, deduplicate keeping first occurrences. -/
def read_links (lines : List String) : List String :=
  dedupeFirst (cleanedLinks lines)

/- ===================================================================
   extract_coordinates_from_url  (get_place_data.py lines 109-119)
   =================================================================== -/

/-- Digit list to natural number value. -/
def digitsVal (l : List Char) : ℕ :=
  l.foldl (fun a c => a * 10 + (c.toNat - '0'.toNat)) 0

/-- Model of Python float() on finite decimal literals: optional sign,
integer and/or fractional digit part, optional exponent; returns the
parsed value and the unconsumed rest.  The inf/nan spellings and digit
underscores accepted by Python are treated as non-parsing here; the
claims proved below do not depend on that restriction. -/
def pyFloatCore (l : List Char) : Option (ℚ × List Char) :=
  let sgnRest : ℚ × List Char :=
    match l with
    | '+' :: t => (1, t)
    | '-' :: t => (-1, t)
    | _ => (1, l)
  let sgn := sgnRest.1
  let l1 := sgnRest.2
  let ip := l1.takeWhile Char.isDigit
  let l2 := l1.drop ip.length
  let fpRest : List Char × List Char :=
    match l2 with
    | '.' :: t => (t.takeWhile Char.isDigit, t.drop (t.takeWhile Char.isDigit).length)
    | _ => ([], l2)
  let fp := fpRest.1
  let l3 := fpRest.2
  if ip.isEmpty && fp.isEmpty then none
  else
    let mant : ℚ := sgn * ((digitsVal ip : ℚ) + (digitsVal fp : ℚ) / (10 : ℚ) ^ fp.length)
    match l3 with
    | 'e' :: t =>
      let esgnRest : ℤ × List Char :=
        match t with
        | '+' :: u => (1, u)
        | '-' :: u => (-1, u)
        | _ => (1, t)
      let ed := esgnRest.2.takeWhile Char.isDigit
      if ed.isEmpty then none
      else some (mant * (10 : ℚ) ^ (esgnRest.1 * (digitsVal ed : ℤ)), esgnRest.2.drop ed.length)
    | 'E' :: t =>
      let esgnRest : ℤ × List Char :=
        match t with
        | '+' :: u => (1, u)
        | '-' :: u => (-1, u)
        | _ => (1, t)
      let ed := esgnRest.2.takeWhile Char.isDigit
      if ed.isEmpty then none
      else some (mant * (10 : ℚ) ^ (esgnRest.1 * (digitsVal ed : ℤ)), esgnRest.2.drop ed.length)
    | _ => some (mant, l3)

/-- Model of Python float(s): surrounding whitespace allowed, the whole
remainder must be consumed; none models a ValueError. -/
def pyFloat (s : String) : Option ℚ :=
  match pyFloatCore (s.data.dropWhile Char.isWhitespace) with
  | some (q, rest) => if rest.all Char.isWhitespace then some q else none
  | none => none

/-- One attempt of the regex !3d([^!]+)!4d([^!]+) anchored at the head of
the list: literal !3d, then a nonempty run of non-! characters (group 1),
then literal !4d, then a nonempty run of non-! characters (group 2). -/
def coordTryAt (l : List Char) : Option (String × String) :=
  match l with
  | '!' :: '3' :: 'd' :: rest =>
    let g1 := rest.takeWhile (fun c => c ≠ '!')
    if g1.isEmpty then none
    else
      match rest.drop g1.length with
      | '!' :: '4' :: 'd' :: rest2 =>
        let g2 := rest2.takeWhile (fun c => c ≠ '!')
        if g2.isEmpty then none else some (String.mk g1, String.mk g2)
      | _ => none
  | _ => none

/-- Model of re.search for the coordinate pattern: try every start
position from left to right. -/
def coordSearch : List Char → Option (String × String)
  | [] => none
  | c :: t =>
    match coordTryAt (c :: t) with
    | some r => some r
    | none => coordSearch t

/-- Model of extract_coordinates_from_url (get_place_data.py lines
109-119): regex search, then both groups parsed with float(); any
ValueError in either group yields the pair (None, None). -/
def extract_coordinates_from_url (url : String) : Option ℚ × Option ℚ :=
  match coordSearch url.data with
  | some (g1, g2) =>
    match pyFloat g1, pyFloat g2 with
    | some lat, some lng => (some lat, some lng)
    | _, _ => (none, none)
  | none => (none, none)

/- ===================================================================
   fetch_page_content  (social_media_scraper.py lines 379-394)
   =================================================================== -/

/-- Outcome of the inner goto-plus-content coroutine of
fetch_page_content: the rendered content, a Playwright timeout, the
asyncio.wait_for timeout, or any other navigation error. -/
inductive GotoOutcome where
  | ok (content : String)
  | playwrightTimeout
  | asyncioTimeout
  | navError
deriving DecidableEq

/-- Model of fetch_page_content (social_media_scraper.py lines 379-394):
every exception branch returns the empty string, the success branch
returns the page content; no outcome escapes as an exception. -/
def fetch_page_content : GotoOutcome → String
  | .ok c => c
  | .playwrightTimeout => ""
  | .asyncioTimeout => ""
  | .navError => ""

/- ===================================================================
   Rate-limit detection segment of get_place_data
   (get_place_data.py lines 401-412)
   =================================================================== -/

/-- Constant RATE_LIMIT_THRESHOLD (get_place_data.py line 39). -/
def RATE_LIMIT_THRESHOLD : ℕ := 5

/-- Constant RATE_LIMIT_COOLDOWN (get_place_data.py line 40). -/
def RATE_LIMIT_COOLDOWN : ℕ := 120

/-- Result of one pass through the rate-limit detection block: the new
value of consecutive_empty_count, whether RATE_LIMITED was returned, and
the number of seconds slept. -/
structure RateLimitStep where
  cnt : ℕ
  rateLimited : Bool
  cooldown : ℕ
deriving DecidableEq

/-- Model of the rate-limit detection block (get_place_data.py lines
401-412), parameterised by the incoming consecutive_empty_count and by
the extracted rating and name fields of the current item. -/
def rate_limit_check (cnt : ℕ) (rating name : String) : RateLimitStep :=
  if rating = "" ∧ name ≠ "" then
    if RATE_LIMIT_THRESHOLD ≤ cnt + 1 then
      { cnt := 0, rateLimited := true, cooldown := RATE_LIMIT_COOLDOWN }
    else
      { cnt := cnt + 1, rateLimited := false, cooldown := 0 }
  else
    { cnt := 0, rateLimited := false, cooldown := 0 }

/- ===================================================================
   The main loop of the GMaps scraper (get_place_data.py lines 522-672)
   =================================================================== -/

/-- Possible results of one call to get_place_data, as consumed by main:
a data record (a dict), the magic strings RATE_LIMITED and
BROWSER_CRASHED, or None after all in-function retries failed. -/
inductive GPResult where
  | record
  | rateLimited
  | crashed
  | failed
deriving DecidableEq

/-- The k-th call to get_place_data for one link is scripted by the k-th
entry of the item script; an exhausted script keeps returning None. -/
def getCall (script : List GPResult) (k : ℕ) : GPResult :=
  script.getD k .failed

/-- Accounting of the handling of one link inside main (get_place_data.py
lines 578-654): number of get_place_data calls made, whether a record was
appended to the CSV, how many driver quit-and-recreate cycles ran, and
whether the double-crash continue path was taken (which skips the rest of
the loop body including the checkpoint write). -/
structure ItemRun where
  calls : ℕ
  appended : Bool
  restarts : ℕ
  doubleCrash : Bool
deriving DecidableEq

/-- Model of the per-link handling in main (get_place_data.py lines
578-654): the rate-limit block may retry up to twice with a driver
restart before each retry, the crash block restarts the driver and
retries once, and a second consecutive crash restarts the driver again
and skips the link via continue.  A record is appended exactly when the
final value is a dict (get_place_data.py line 649). -/
def processItem (s : List GPResult) : ItemRun :=
  let rl : GPResult × ℕ × ℕ :=
    if getCall s 0 = .rateLimited then
      if getCall s 1 = .rateLimited then (getCall s 2, 3, 2) else (getCall s 1, 2, 1)
    else (getCall s 0, 1, 0)
  let r := rl.1
  let k := rl.2.1
  let rst := rl.2.2
  if r = .crashed then
    if getCall s k = .crashed then
      { calls := k + 1, appended := false, restarts := rst + 2, doubleCrash := true }
    else
      { calls := k + 1, appended := decide (getCall s k = .record),
        restarts := rst + 1, doubleCrash := false }
  else
    { calls := k, appended := decide (r = .record), restarts := rst, doubleCrash := false }

/-- Persistent state of the GMaps batch loop: content of
last_processed.txt (none when the file is absent), the number of records
appended to the output CSV, and the number of links completed without an
append. -/
structure BatchState where
  cp : Option ℕ
  appended : ℕ
  skipped : ℕ
deriving DecidableEq

/-- One iteration of the main loop for link number i (1-based), given the
item script.  The checkpoint is written only when i is a multiple of 5
(get_place_data.py lines 656-658) and not on the double-crash continue
path (line 647). -/
def stepItem (st : BatchState) (i : ℕ) (script : List GPResult) : BatchState :=
  let ir := processItem script
  { cp := if ir.doubleCrash then st.cp else if i % 5 = 0 then some i else st.cp
    appended := st.appended + (if ir.appended then 1 else 0)
    skipped := st.skipped + (if ir.appended then 0 else 1) }

/-- The main loop over the remaining links, i being the 1-based index of
the next link. -/
def runGMapsAux : BatchState → ℕ → List (List GPResult) → BatchState
  | st, _, [] => st
  | st, i, s :: rest => runGMapsAux (stepItem st i s) (i + 1) rest

/-- Fresh-run initial state: no checkpoint file, empty output. -/
def initialBatchState : BatchState :=
  { cp := none, appended := 0, skipped := 0 }

/-- State of a fresh GMaps run after the first k links have been
completed and before link k+1 starts. -/
def runGMapsPrefix (scripts : List (List GPResult)) (k : ℕ) : BatchState :=
  runGMapsAux initialBatchState 1 (scripts.take k)

/-- State of a fresh GMaps run after full completion: after the loop,
save_last_processed_index(len(links)) overwrites the checkpoint with the
total number of links (get_place_data.py line 668); the file is not
deleted. -/
def runGMapsFinal (scripts : List (List GPResult)) : BatchState :=
  { runGMapsAux initialBatchState 1 scripts with cp := some scripts.length }

/-- Model of get_last_processed_index (get_place_data.py lines 506-511):
an absent or unreadable checkpoint file reads as 0. -/
def cpRead (cp : Option ℕ) : ℕ :=
  cp.getD 0

/- ===================================================================
   The row loop of the socials scraper
   (social_media_scraper.py lines 481-749)
   =================================================================== -/

/-- How one CSV row is dispatched by process_csv: skipped for a missing
website (line 597), skipped for a blacklisted domain (line 608), or
scraped normally. -/
inductive RowKind where
  | noWebsite
  | blacklisted
  | normal
deriving DecidableEq

/-- Persistent state of the socials row loop: content of
scraper_progress.txt (none when absent), rows scraped, rows skipped. -/
structure SocState where
  cp : Option ℕ
  processed : ℕ
  skippedRows : ℕ
deriving DecidableEq

/-- One iteration of process_csv for the row at 0-based index idx: every
path ends by writing idx+1 into the progress file (social_media_scraper.py
lines 600, 611 and 721). -/
def socStep (st : SocState) (idx : ℕ) (r : RowKind) : SocState :=
  match r with
  | .noWebsite => { cp := some (idx + 1), processed := st.processed, skippedRows := st.skippedRows + 1 }
  | .blacklisted => { cp := some (idx + 1), processed := st.processed, skippedRows := st.skippedRows + 1 }
  | .normal => { cp := some (idx + 1), processed := st.processed + 1, skippedRows := st.skippedRows }

/-- The row loop, idx being the 0-based index of the next row. -/
def runSocialsAux : SocState → ℕ → List RowKind → SocState
  | st, _, [] => st
  | st, idx, r :: rest => runSocialsAux (socStep st idx r) (idx + 1) rest

/-- State of a fresh socials run after the first k rows are completed. -/
def runSocialsPrefix (rows : List RowKind) (k : ℕ) : SocState :=
  runSocialsAux { cp := none, processed := 0, skippedRows := 0 } 0 (rows.take k)

/-- State of a fresh socials run after full completion: the progress file
is deleted (social_media_scraper.py lines 730-732). -/
def runSocialsFinal (rows : List RowKind) : SocState :=
  { runSocialsAux { cp := none, processed := 0, skippedRows := 0 } 0 rows with cp := none }

/- ===================================================================
   extract_phone_numbers / normalize_hu
   (social_media_scraper.py lines 320-377)
   =================================================================== -/

/-- Keyword list of extract_phone_numbers (social_media_scraper.py
line 325). -/
def phoneKeywords : List String :=
  ["phone", "telefon", "tel", "kapcsolat", "call", "contact", "mobil", "hívás"]

/-- Model of Python str.find: index of the first occurrence of needle in
hay, none when absent. -/
def findSub : List Char → List Char → Option ℕ
  | hay, needle =>
    match hay with
    | [] => if needle.isEmpty then some 0 else none
    | _ :: t => if needle.isPrefixOf hay then some 0 else (findSub t needle).map (· + 1)

/-- Keyword-window construction of extract_phone_numbers
(social_media_scraper.py lines 326-338): for each keyword found in the
lowercased text, the slice text[max(0,idx-80) : min(len,idx+120)]; when no
keyword occurs, the single block text[:2000]. -/
def blocksOf (text : List Char) : List (List Char) :=
  let lower := text.map Char.toLower
  let bs := phoneKeywords.filterMap (fun kw =>
    match findSub lower kw.data with
    | some idx => some ((text.drop (idx - 80)).take (min text.length (idx + 120) - (idx - 80)))
    | none => none)
  if bs.isEmpty then [text.take 2000] else bs

/-- Character class of the phone regex body [\d\s().-]. -/
def phoneCls (c : Char) : Bool :=
  c.isDigit || c.isWhitespace || c = '(' || c = ')' || c = '.' || c = '-'

/-- One anchored attempt of the regex \+?\d[\d\s().-]{6,20}: optional
plus, a digit, then greedily 6 to 20 body characters; returns the matched
characters and the unconsumed rest. -/
def phoneMatchAt (l : List Char) : Option (List Char × List Char) :=
  let plRest : List Char × List Char :=
    match l with
    | '+' :: t => (['+'], t)
    | _ => ([], l)
  match plRest.2 with
  | d :: t =>
    if d.isDigit then
      let body := (t.takeWhile phoneCls).take 20
      if 6 ≤ body.length then some (plRest.1 ++ d :: body, t.drop body.length) else none
    else none
  | [] => none

/-- Model of re.findall for the phone regex: scan left to right, matches
are non-overlapping; the fuel argument (instantiated with the list
length, which bounds the number of steps) makes the recursion
structural. -/
def phoneFindAllAux : ℕ → List Char → List (List Char)
  | 0, _ => []
  | _ + 1, [] => []
  | fuel + 1, c :: t =>
    match phoneMatchAt (c :: t) with
    | some (m, rest) => m :: phoneFindAllAux fuel rest
    | none => phoneFindAllAux fuel t

/-- All matches of the phone regex in a block. -/
def phoneFindAll (l : List Char) : List (List Char) :=
  phoneFindAllAux l.length l

/-- Model of re.sub applied to a match (social_media_scraper.py line
346): keep only digits and plus signs. -/
def cleanPhone (m : List Char) : List Char :=
  m.filter (fun c => c.isDigit || c = '+')

/-- Model of normalize_hu (social_media_scraper.py lines 373-377): a
leading 06 trunk prefix becomes +36; every other number is returned
unchanged. -/
def normalize_hu (num : String) : String :=
  if ['0', '6'].isPrefixOf num.data then String.mk ('+' :: '3' :: '6' :: num.data.drop 2)
  else num

/-- The phone candidates produced by extract_phone_numbers
(social_media_scraper.py lines 343-349) before set-deduplication and
scoring: for every keyword block and every regex match, the cleaned
number is kept when its length lies in 7..15 and is then normalized. -/
def phoneCandidates (text : String) : List String :=
  (blocksOf text.data).flatMap (fun b =>
    (phoneFindAll b).filterMap (fun m =>
      let num := cleanPhone m
      if 7 ≤ num.length ∧ num.length ≤ 15 then some (normalize_hu (String.mk num)) else none))

/- ===================================================================
   is_valid_email  (social_media_scraper.py lines 243-278)
   =================================================================== -/

/-- Character class of the local part of the email regex. -/
def isLocalChar (c : Char) : Bool :=
  c.isAlphanum || c = '.' || c = '_' || c = '%' || c = '+' || c = '-'

/-- Character class of the domain part of the email regex. -/
def isDomChar (c : Char) : Bool :=
  c.isAlphanum || c = '.' || c = '-'

/-- Tail of the email regex [A-Za-z0-9.-]+\.[A-Za-z]{2,}$ applied to the
part after the at sign: since the TLD class excludes dots, the literal
dot of the pattern must be the last dot of the string. -/
def domOK (rest : List Char) : Bool :=
  let tldRev := rest.reverse.takeWhile (fun c => c ≠ '.')
  match rest.reverse.dropWhile (fun c => c ≠ '.') with
  | '.' :: dRev =>
    !dRev.isEmpty && dRev.all isDomChar && tldRev.all Char.isAlpha && decide (2 ≤ tldRev.length)
  | _ => false

/-- The anchored email regex
^[A-Za-z0-9._%+-]+@[A-Za-z0-9.-]+\.[A-Za-z]{2,}$ of is_valid_email: since
the local class excludes the at sign, the at sign matched is the first
one. -/
def emailRegexOK (l : List Char) : Bool :=
  let loc := l.takeWhile (fun c => c ≠ '@')
  match l.dropWhile (fun c => c ≠ '@') with
  | '@' :: rest => !loc.isEmpty && loc.all isLocalChar && domOK rest
  | _ => false

/-- Placeholder patterns rejected by is_valid_email
(social_media_scraper.py lines 256-264). -/
def invalidEmailPatterns : List String :=
  ["example.com", "test.com", "domain.com", "email.com", "yoursite.com", "company.com",
   "yourdomain"]

/-- Model of Python str.split(sep) for a single-character separator. -/
def splitOnChar (sep : Char) : List Char → List (List Char)
  | [] => [[]]
  | c :: t =>
    let r := splitOnChar sep t
    if c = sep then [] :: r
    else
      match r with
      | h :: t2 => (c :: h) :: t2
      | [] => [[c]]

/-- Model of is_valid_email (social_media_scraper.py lines 243-278):
strip and lowercase, regex shape check, rejection of query and path
characters, rejection of placeholder patterns, exactly one at sign, and
length caps on the two parts. -/
def is_valid_email (email : String) : Bool :=
  let e := (stripChars email.data).map Char.toLower
  if !emailRegexOK e then false
  else if ['?', '&', '/', '=', ' '].any (fun c => e.contains c) then false
  else if invalidEmailPatterns.any (fun p => containsSub e p.data) then false
  else
    match splitOnChar '@' e with
    | [loc, dom] => !(decide (64 < loc.length) || decide (255 < dom.length))
    | _ => false

/- ===================================================================
   get_best_email  (social_media_scraper.py lines 164-206)
   =================================================================== -/

/-- Professional prefix scores (social_media_scraper.py lines 164-176). -/
def professionalIndicators : List (String × ℤ) :=
  [("info@", 10), ("contact@", 9), ("hello@", 8), ("support@", 7), ("sales@", 6),
   ("admin@", 5), ("office@", 4), ("business@", 3), ("general@", 2), ("noreply@", 1),
   ("no-reply@", 1)]

/-- Unprofessional markers (social_media_scraper.py lines 179-181). -/
def unprofessionalIndicators : List String :=
  ["test@", "temp@", "example@", "sample@", "dummy@"]

/-- Free-mail domains penalised by the score
(social_media_scraper.py line 200). -/
def freeMailDomains : List String :=
  ["gmail.com", "yahoo.com", "hotmail.com"]

/-- Model of the inner score function of get_best_email
(social_media_scraper.py lines 193-202). -/
def emailScore (email : String) : ℤ :=
  let s0 := professionalIndicators.foldl
    (fun acc kv => if containsSub email.data kv.1.data then acc + kv.2 else acc) 0
  let s1 := if unprofessionalIndicators.any (fun b => containsSub email.data b.data)
    then s0 - 10 else s0
  if freeMailDomains.any (fun d => containsSub email.data d.data) then s1 - 5 else s1

/-- Stable insertion for a descending-by-score order: the new element
goes in front of the first element whose score is not larger, so earlier
list elements stay in front of equal-scored later ones. -/
def insertByScoreDesc (e : String) : List String → List String
  | [] => [e]
  | b :: bs => if emailScore e < emailScore b then b :: insertByScoreDesc e bs else e :: b :: bs

/-- Model of Python sorted(emails, key=score, reverse=True): a stable
sort by descending score. -/
def pySortedByScoreDesc (l : List String) : List String :=
  l.foldr insertByScoreDesc []

/-- Model of get_best_email (social_media_scraper.py lines 191-206):
empty input gives the empty string, otherwise the head of the stable
descending sort. -/
def get_best_email (emails : List String) : String :=
  match pySortedByScoreDesc emails with
  | [] => ""
  | b :: _ => b

/-- First element of maximal score, ties resolved to the earliest
element; reference function for the selection theorem. -/
def firstArgmax : List String → Option String
  | [] => none
  | e :: rest =>
    match firstArgmax rest with
    | none => some e
    | some b => some (if emailScore e < emailScore b then b else e)

/- ===================================================================
   Helper lemmas about dedupeFirst
   =================================================================== -/

theorem dedupeFirst_sublist (l : List String) : List.Sublist (dedupeFirst l) l := by
  induction l using dedupeFirst.induct with
  | case1 => simp [dedupeFirst]
  | case2 x xs ih =>
    rw [dedupeFirst]
    exact (ih.trans (List.filter_sublist xs)).cons₂ x

theorem mem_dedupeFirst (l : List String) (x : String) : x ∈ dedupeFirst l ↔ x ∈ l := by
  induction l using dedupeFirst.induct with
  | case1 => simp [dedupeFirst]
  | case2 y ys ih =>
    rw [dedupeFirst]
    constructor
    · intro h
      rcases List.mem_cons.mp h with h | h
      · exact h ▸ List.mem_cons_self y ys
      · exact List.mem_cons_of_mem y (List.mem_of_mem_filter (ih.mp h))
    · intro h
      rcases List.mem_cons.mp h with h | h
      · exact h ▸ List.mem_cons_self _ _
      · by_cases hxy : x = y
        · exact hxy ▸ List.mem_cons_self _ _
        · exact List.mem_cons_of_mem _ (ih.mpr (List.mem_filter.mpr ⟨h, by simp [hxy]⟩))

theorem dedupeFirst_nodup (l : List String) : (dedupeFirst l).Nodup := by
  induction l using dedupeFirst.induct with
  | case1 => simp [dedupeFirst]
  | case2 x xs ih =>
    rw [dedupeFirst]
    refine List.nodup_cons.mpr ⟨fun hmem => ?_, ih⟩
    have hx := (mem_dedupeFirst _ _).mp hmem
    have := (List.mem_filter.mp hx).2
    simp at this

theorem indexOf_filter_lt (p : String → Bool) :
    ∀ (l : List String) (a b : String), a ∈ l.filter p → b ∈ l.filter p →
      (l.filter p).indexOf a < (l.filter p).indexOf b → l.indexOf a < l.indexOf b := by
  intro l
  induction l with
  | nil => intro a b ha _ _; simp at ha
  | cons y ys ih =>
    intro a b ha hb hlt
    by_cases hy : p y = true
    · rw [List.filter_cons_of_pos hy] at ha hb hlt
      by_cases hay : a = y
      · subst hay
        have hba : b ≠ a := by
          rintro rfl
          exact absurd hlt (lt_irrefl _)
        rw [List.indexOf_cons_self, List.indexOf_cons_ne ys (Ne.symm hba)]
        exact Nat.succ_pos _
      · by_cases hby : b = y
        · subst hby
          rw [List.indexOf_cons_self] at hlt
          exact absurd hlt (Nat.not_lt_zero _)
        · have ha' : a ∈ ys.filter p := by
            rcases List.mem_cons.mp ha with h | h
            · exact absurd h hay
            · exact h
          have hb' : b ∈ ys.filter p := by
            rcases List.mem_cons.mp hb with h | h
            · exact absurd h hby
            · exact h
          rw [List.indexOf_cons_ne _ (Ne.symm hay), List.indexOf_cons_ne _ (Ne.symm hby)] at hlt
          rw [List.indexOf_cons_ne ys (Ne.symm hay), List.indexOf_cons_ne ys (Ne.symm hby)]
          exact Nat.succ_lt_succ (ih a b ha' hb' (Nat.lt_of_succ_lt_succ hlt))
    · have hy' : p y = false := by
        cases h : p y
        · rfl
        · exact absurd h hy
      rw [List.filter_cons_of_neg (by simp [hy'])] at ha hb hlt
      have hpa := (List.mem_filter.mp ha).2
      have hpb := (List.mem_filter.mp hb).2
      have hay : a ≠ y := by
        rintro rfl
        rw [hy'] at hpa
        exact Bool.false_ne_true hpa
      have hby : b ≠ y := by
        rintro rfl
        rw [hy'] at hpb
        exact Bool.false_ne_true hpb
      rw [List.indexOf_cons_ne ys (Ne.symm hay), List.indexOf_cons_ne ys (Ne.symm hby)]
      exact Nat.succ_lt_succ (ih a b ha hb hlt)

theorem dedupeFirst_pairwise (l : List String) :
    (dedupeFirst l).Pairwise (fun a b => l.indexOf a < l.indexOf b) := by
  induction l using dedupeFirst.induct with
  | case1 => simp [dedupeFirst]
  | case2 x xs ih =>
    rw [dedupeFirst]
    refine List.pairwise_cons.mpr ⟨?_, ?_⟩
    · intro b hb
      have hbf : b ∈ xs.filter (fun y => y ≠ x) := (mem_dedupeFirst _ _).mp hb
      have hbx : b ≠ x := by
        have := (List.mem_filter.mp hbf).2
        simpa using this
      rw [List.indexOf_cons_self, List.indexOf_cons_ne xs (Ne.symm hbx)]
      exact Nat.succ_pos _
    · refine List.Pairwise.imp_of_mem ?_ ih
      intro a b ha hb hab
      have haf : a ∈ xs.filter (fun y => y ≠ x) := (mem_dedupeFirst _ _).mp ha
      have hbf : b ∈ xs.filter (fun y => y ≠ x) := (mem_dedupeFirst _ _).mp hb
      have hax : a ≠ x := by
        have := (List.mem_filter.mp haf).2
        simpa using this
      have hbx : b ≠ x := by
        have := (List.mem_filter.mp hbf).2
        simpa using this
      have hnat := indexOf_filter_lt (fun y => y ≠ x) xs a b haf hbf hab
      rw [List.indexOf_cons_ne xs (Ne.symm hax), List.indexOf_cons_ne xs (Ne.symm hbx)]
      exact Nat.succ_lt_succ hnat

/- ===================================================================
   Helper lemmas about the batch loops
   =================================================================== -/

theorem stepItem_counts (st : BatchState) (i : ℕ) (a : List GPResult) :
    (stepItem st i a).appended + (stepItem st i a).skipped = st.appended + st.skipped + 1 := by
  cases h : (processItem a).appended <;> simp [stepItem, h] <;> omega

theorem stepItem_cp_write (st : BatchState) (i : ℕ) (a : List GPResult)
    (h1 : (processItem a).doubleCrash = false) (h2 : i % 5 = 0) :
    (stepItem st i a).cp = some i := by
  simp [stepItem, h1, h2]

theorem runGMapsAux_append (l : List (List GPResult)) :
    ∀ (st : BatchState) (i : ℕ) (a : List GPResult),
      runGMapsAux st i (l ++ [a]) = stepItem (runGMapsAux st i l) (i + l.length) a := by
  induction l with
  | nil => intro st i a; simp [runGMapsAux]
  | cons s rest ih =>
    intro st i a
    have h1 : runGMapsAux st i ((s :: rest) ++ [a])
        = runGMapsAux (stepItem st i s) (i + 1) (rest ++ [a]) := rfl
    have h2 : runGMapsAux st i (s :: rest)
        = runGMapsAux (stepItem st i s) (i + 1) rest := rfl
    rw [h1, ih, h2]
    congr 1
    simp [List.length_cons]
    omega

theorem runGMapsAux_counts (l : List (List GPResult)) :
    ∀ (st : BatchState) (i : ℕ),
      (runGMapsAux st i l).appended + (runGMapsAux st i l).skipped
        = st.appended + st.skipped + l.length := by
  induction l with
  | nil => intro st i; simp [runGMapsAux]
  | cons s rest ih =>
    intro st i
    have h : runGMapsAux st i (s :: rest) = runGMapsAux (stepItem st i s) (i + 1) rest := rfl
    rw [h, ih, stepItem_counts]
    simp [List.length_cons]
    omega

theorem runSocialsAux_spec (l : List RowKind) :
    ∀ (st : SocState) (idx : ℕ),
      ((runSocialsAux st idx l).processed + (runSocialsAux st idx l).skippedRows
          = st.processed + st.skippedRows + l.length) ∧
      (runSocialsAux st idx l).cp = (if l = [] then st.cp else some (idx + l.length)) := by
  induction l with
  | nil => intro st idx; simp [runSocialsAux]
  | cons r rest ih =>
    intro st idx
    have h : runSocialsAux st idx (r :: rest) = runSocialsAux (socStep st idx r) (idx + 1) rest := rfl
    obtain ⟨h1, h2⟩ := ih (socStep st idx r) (idx + 1)
    constructor
    · rw [h, h1]
      cases r <;> simp [socStep] <;> omega
    · rw [h, h2]
      rcases rest with _ | ⟨r2, rest2⟩
      · cases r <;> simp [socStep]
      · simp only [List.length_cons, if_neg (List.cons_ne_nil r2 rest2),
          if_neg (List.cons_ne_nil r rest2)]
        congr 1
        omega

/- ===================================================================
   Helper lemmas about get_best_email
   =================================================================== -/

theorem head?_insertByScoreDesc (e : String) (m : List String) :
    (insertByScoreDesc e m).head? = some (match m.head? with
      | none => e
      | some b => if emailScore e < emailScore b then b else e) := by
  cases m with
  | nil => rfl
  | cons b bs =>
    by_cases h : emailScore e < emailScore b <;> simp [insertByScoreDesc, h]

theorem head?_pySortedByScoreDesc (l : List String) :
    (pySortedByScoreDesc l).head? = firstArgmax l := by
  induction l with
  | nil => rfl
  | cons e rest ih =>
    have h : pySortedByScoreDesc (e :: rest) = insertByScoreDesc e (pySortedByScoreDesc rest) := rfl
    rw [h, head?_insertByScoreDesc, ih]
    cases h2 : firstArgmax rest <;> simp [firstArgmax, h2]

theorem firstArgmax_eq_none_iff (l : List String) : firstArgmax l = none ↔ l = [] := by
  cases l with
  | nil => simp [firstArgmax]
  | cons e rest =>
    simp only [firstArgmax]
    cases firstArgmax rest <;> simp

theorem firstArgmax_spec (l : List String) :
    ∀ b, firstArgmax l = some b →
      b ∈ l ∧ (∀ x ∈ l, emailScore x ≤ emailScore b) ∧
      ∃ p s, l = p ++ b :: s ∧ ∀ x ∈ p, emailScore x < emailScore b := by
  induction l with
  | nil => intro b h; simp [firstArgmax] at h
  | cons e rest ih =>
    intro b h
    rw [firstArgmax] at h
    cases h2 : firstArgmax rest with
    | none =>
      rw [h2] at h
      have hb : e = b := by simpa using h
      subst hb
      have hrest : rest = [] := (firstArgmax_eq_none_iff rest).mp h2
      subst hrest
      refine ⟨List.mem_cons_self _ _, ?_, [], [], rfl, by simp⟩
      intro x hx
      have : x = e := by simpa using hx
      exact this ▸ le_refl _
    | some b' =>
      rw [h2] at h
      obtain ⟨hmem, hmax, p, s, hdec, hlt⟩ := ih b' h2
      by_cases hc : emailScore e < emailScore b'
      · have hb : b' = b := by simpa [hc] using h
        subst hb
        refine ⟨List.mem_cons_of_mem _ hmem, ?_, e :: p, s, by rw [hdec]; simp, ?_⟩
        · intro x hx
          rcases List.mem_cons.mp hx with h3 | h3
          · exact h3 ▸ le_of_lt hc
          · exact hmax x h3
        · intro x hx
          rcases List.mem_cons.mp hx with h3 | h3
          · exact h3 ▸ hc
          · exact hlt x h3
      · have hb : e = b := by simpa [hc] using h
        subst hb
        refine ⟨List.mem_cons_self _ _, ?_, [], rest, rfl, by simp⟩
        intro x hx
        rcases List.mem_cons.mp hx with h3 | h3
        · exact h3 ▸ le_refl _
        · exact le_trans (hmax x h3) (not_lt.mp hc)

theorem firstArgmax_get_best_email (es : List String) (h : es ≠ []) :
    firstArgmax es = some (get_best_email es) := by
  cases hfa : firstArgmax es with
  | none => exact absurd ((firstArgmax_eq_none_iff es).mp hfa) h
  | some b =>
    have hh : (pySortedByScoreDesc es).head? = some b := by
      rw [head?_pySortedByScoreDesc, hfa]
    cases hps : pySortedByScoreDesc es with
    | nil => rw [hps] at hh; simp at hh
    | cons b' t =>
      rw [hps] at hh
      have : b' = b := by simpa using hh
      simp [get_best_email, hps, this]

/- ===================================================================
   Helper lemmas about the email regex
   =================================================================== -/

theorem ne_nil_of_isEmpty_eq_false {α : Type} {l : List α} (h : l.isEmpty = false) : l ≠ [] := by
  cases l
  · simp at h
  · exact List.cons_ne_nil _ _

theorem domOK_decomp (rest : List Char) (h : domOK rest = true) :
    ∃ d tld, rest = d ++ '.' :: tld ∧ d ≠ [] ∧ d.all isDomChar = true ∧
      tld.all Char.isAlpha = true ∧ 2 ≤ tld.length := by
  unfold domOK at h
  split at h
  next dRev heq =>
    simp only [Bool.and_eq_true, Bool.not_eq_true', decide_eq_true_eq] at h
    obtain ⟨⟨⟨hne, hdom⟩, halpha⟩, hlen⟩ := h
    have hdne : dRev ≠ [] := ne_nil_of_isEmpty_eq_false hne
    refine ⟨dRev.reverse, (rest.reverse.takeWhile (fun c => c ≠ '.')).reverse, ?_, ?_, ?_, ?_, ?_⟩
    · have hsplit : rest.reverse.takeWhile (fun c => c ≠ '.')
          ++ rest.reverse.dropWhile (fun c => c ≠ '.') = rest.reverse :=
        List.takeWhile_append_dropWhile _ _
      rw [heq] at hsplit
      have := congrArg List.reverse hsplit
      simpa [List.reverse_append] using this.symm
    · exact fun hcon => hdne (by simpa using hcon)
    · simpa using hdom
    · simpa using halpha
    · simpa using hlen
  next => exact absurd h (by simp)

theorem emailRegexOK_decomp (l : List Char) (h : emailRegexOK l = true) :
    ∃ loc d tld, l = loc ++ '@' :: (d ++ '.' :: tld) ∧ loc ≠ [] ∧
      loc.all isLocalChar = true ∧ d ≠ [] ∧ d.all isDomChar = true ∧
      tld.all Char.isAlpha = true ∧ 2 ≤ tld.length := by
  unfold emailRegexOK at h
  split at h
  next rest heq =>
    simp only [Bool.and_eq_true, Bool.not_eq_true'] at h
    obtain ⟨⟨hne, hall⟩, hdom⟩ := h
    obtain ⟨d, tld, hrest, hd, hdall, htall, htlen⟩ := domOK_decomp rest hdom
    refine ⟨l.takeWhile (fun c => c ≠ '@'), d, tld, ?_,
      ne_nil_of_isEmpty_eq_false hne, hall, hd, hdall, htall, htlen⟩
    have hsplit : l.takeWhile (fun c => c ≠ '@') ++ l.dropWhile (fun c => c ≠ '@') = l :=
      List.takeWhile_append_dropWhile _ _
    rw [heq, hrest] at hsplit
    exact hsplit.symm
  next => exact absurd h (by simp)

/- ===================================================================
   Claim theorems
   =================================================================== -/

/-- Claim C1, counterexample: in a fresh GMaps run of two successful
items, after item 1 completes (no item in flight) the persisted
checkpoint still reads 0 while one record has been appended, so the
claimed invariant fails between the every-5-items checkpoint writes. -/
theorem checkpoint_invariant_counterexample :
    cpRead (runGMapsPrefix [[GPResult.record], [GPResult.record]] 1).cp
      ≠ (runGMapsPrefix [[GPResult.record], [GPResult.record]] 1).appended
        + (runGMapsPrefix [[GPResult.record], [GPResult.record]] 1).skipped := by
  decide

/-- Claim C1, amended: in the socials scraper the persisted checkpoint
equals the count of completed rows (processed plus skipped) after every
completed row; in the GMaps scraper the checkpoint is persisted only at
items whose 1-based index is a multiple of 5 (and not on the
double-crash path), where its value equals the number of completed items
(appended plus non-appended). -/
theorem checkpoint_invariant_amended :
    (∀ (rows : List RowKind) (k : ℕ), k ≤ rows.length →
        cpRead (runSocialsPrefix rows k).cp
          = (runSocialsPrefix rows k).processed + (runSocialsPrefix rows k).skippedRows) ∧
    (∀ (scripts : List (List GPResult)) (k : ℕ), 0 < k → k ≤ scripts.length → k % 5 = 0 →
        (processItem (scripts.getD (k - 1) [])).doubleCrash = false →
        (runGMapsPrefix scripts k).cp = some k ∧
        (runGMapsPrefix scripts k).appended + (runGMapsPrefix scripts k).skipped = k) := by
  constructor
  · intro rows k hk
    obtain ⟨h1, h2⟩ := runSocialsAux_spec (rows.take k) ⟨none, 0, 0⟩ 0
    by_cases hk0 : rows.take k = []
    · unfold runSocialsPrefix
      rw [hk0]
      simp [runSocialsAux, cpRead]
    · have hlen : (rows.take k).length = k := by rw [List.length_take]; omega
      unfold runSocialsPrefix
      rw [h2, if_neg hk0, h1, hlen]
      simp [cpRead]
  · intro scripts k hk0 hk hk5 hdc
    have hlt : k - 1 < scripts.length := by omega
    have htake : scripts.take ((k - 1) + 1) = scripts.take (k - 1) ++ [scripts.getD (k - 1) []] := by
      rw [List.take_succ, List.getElem?_eq_getElem hlt, List.getD_eq_getElem scripts [] hlt]
      rfl
    have hk1 : k = (k - 1) + 1 := by omega
    have hrun : runGMapsPrefix scripts k
        = stepItem (runGMapsAux initialBatchState 1 (scripts.take (k - 1)))
            (1 + (scripts.take (k - 1)).length) (scripts.getD (k - 1) []) := by
      unfold runGMapsPrefix
      conv_lhs => rw [hk1, htake]
      rw [runGMapsAux_append]
    have hlen : (scripts.take (k - 1)).length = k - 1 := by rw [List.length_take]; omega
    have hidx : 1 + (scripts.take (k - 1)).length = k := by rw [hlen]; omega
    rw [hrun, hidx]
    constructor
    · exact stepItem_cp_write _ _ _ hdc hk5
    · rw [stepItem_counts, runGMapsAux_counts, hlen]
      simp [initialBatchState]
      omega

/-- Witness for the amended claim C1 at concrete runs. -/
theorem checkpoint_invariant_amended_witness :
    (cpRead (runSocialsPrefix [RowKind.normal] 1).cp
        = (runSocialsPrefix [RowKind.normal] 1).processed
          + (runSocialsPrefix [RowKind.normal] 1).skippedRows) ∧
    ((runGMapsPrefix (List.replicate 5 [GPResult.record]) 5).cp = some 5 ∧
      (runGMapsPrefix (List.replicate 5 [GPResult.record]) 5).appended
        + (runGMapsPrefix (List.replicate 5 [GPResult.record]) 5).skipped = 5) :=
  ⟨checkpoint_invariant_amended.1 [RowKind.normal] 1 (by decide),
   checkpoint_invariant_amended.2 (List.replicate 5 [GPResult.record]) 5
     (by decide) (by decide) (by decide) (by decide)⟩

/-- Claim C2, counterexample: in a fresh GMaps run of two successful
items, no checkpoint is written after item 1 completes, and on full
completion the checkpoint file is not deleted but overwritten with the
total link count. -/
theorem checkpoint_write_delete_counterexample :
    (runGMapsPrefix [[GPResult.record], [GPResult.record]] 1).cp = none ∧
    (runGMapsFinal [[GPResult.record], [GPResult.record]]).cp = some 2 ∧
    (runGMapsFinal [[GPResult.record], [GPResult.record]]).cp ≠ none := by
  decide

/-- Claim C2, amended: the socials scraper writes the checkpoint after
every completed row and deletes it on full completion; the GMaps scraper
writes it only every 5th item and on full completion overwrites it with
the total link count instead of deleting it. -/
theorem checkpoint_write_delete_amended :
    (∀ (rows : List RowKind) (k : ℕ), 0 < k → k ≤ rows.length →
        (runSocialsPrefix rows k).cp = some k) ∧
    (∀ rows : List RowKind, (runSocialsFinal rows).cp = none) ∧
    (∀ scripts : List (List GPResult), (runGMapsFinal scripts).cp = some scripts.length) := by
  refine ⟨?_, ?_, ?_⟩
  · intro rows k hk0 hk
    obtain ⟨h1, h2⟩ := runSocialsAux_spec (rows.take k) ⟨none, 0, 0⟩ 0
    have hlen : (rows.take k).length = k := by rw [List.length_take]; omega
    have hne : rows.take k ≠ [] := by
      intro hcon
      rw [hcon] at hlen
      simp at hlen
      omega
    unfold runSocialsPrefix
    rw [h2, if_neg hne, hlen]
    simp
  · intro rows
    rfl
  · intro scripts
    rfl

/-- Witness for the amended claim C2 at concrete runs. -/
theorem checkpoint_write_delete_amended_witness :
    (runSocialsPrefix [RowKind.normal] 1).cp = some 1 ∧
    (runSocialsFinal [RowKind.normal]).cp = none ∧
    (runGMapsFinal [[GPResult.record]]).cp = some 1 :=
  ⟨checkpoint_write_delete_amended.1 [RowKind.normal] 1 (by decide) (by decide),
   checkpoint_write_delete_amended.2.1 [RowKind.normal],
   checkpoint_write_delete_amended.2.2 [[GPResult.record]]⟩

/-- Claim C3, counterexample: a BrowserFault followed by another
BrowserFault on the retry appends no record at all (not one all-empty
record) and performs two session restarts (not one); only the absence of
a third attempt holds. -/
theorem double_crash_counterexample :
    (processItem [GPResult.crashed, GPResult.crashed]).appended = false ∧
    (processItem [GPResult.crashed, GPResult.crashed]).restarts = 2 ∧
    (processItem [GPResult.crashed, GPResult.crashed]).calls = 2 := by
  decide

/-- Claim C3, amended: for every work item whose first call crashes and
whose retry crashes again, the item is permanently skipped with no record
appended, exactly two session restarts are performed (one before the
retry, one after the repeated fault), and no third scrape attempt is
made. -/
theorem double_crash_amended :
    ∀ s : List GPResult, getCall s 0 = GPResult.crashed → getCall s 1 = GPResult.crashed →
      processItem s = { calls := 2, appended := false, restarts := 2, doubleCrash := true } := by
  intro s h0 h1
  simp [processItem, h0, h1]

/-- Witness for the amended claim C3 at the double-crash script. -/
theorem double_crash_amended_witness :
    processItem [GPResult.crashed, GPResult.crashed]
      = { calls := 2, appended := false, restarts := 2, doubleCrash := true } :=
  double_crash_amended [GPResult.crashed, GPResult.crashed] (by decide) (by decide)

/-- Claim C4: with threshold 5 and cooldown 120, an item with non-empty
name and empty rating increments the consecutive-empty counter; when the
incremented counter reaches the threshold the block sleeps for the
cooldown, returns RATE_LIMITED and resets the counter to zero; any item
with a non-empty rating resets the counter to zero. -/
theorem rate_limit_behaviour :
    (RATE_LIMIT_THRESHOLD = 5 ∧ RATE_LIMIT_COOLDOWN = 120) ∧
    ∀ (cnt : ℕ) (rating name : String),
      (rating ≠ "" → rate_limit_check cnt rating name
          = { cnt := 0, rateLimited := false, cooldown := 0 }) ∧
      (rating = "" → name ≠ "" → cnt + 1 < RATE_LIMIT_THRESHOLD →
          rate_limit_check cnt rating name
            = { cnt := cnt + 1, rateLimited := false, cooldown := 0 }) ∧
      (rating = "" → name ≠ "" → RATE_LIMIT_THRESHOLD ≤ cnt + 1 →
          rate_limit_check cnt rating name
            = { cnt := 0, rateLimited := true, cooldown := RATE_LIMIT_COOLDOWN }) := by
  refine ⟨⟨rfl, rfl⟩, ?_⟩
  intro cnt rating name
  refine ⟨?_, ?_, ?_⟩
  · intro h
    simp only [rate_limit_check]
    rw [if_neg (fun hcon => h hcon.1)]
  · intro h1 h2 h3
    simp only [rate_limit_check]
    rw [if_pos ⟨h1, h2⟩, if_neg (by omega)]
  · intro h1 h2 h3
    simp only [rate_limit_check]
    rw [if_pos ⟨h1, h2⟩, if_pos h3]

/-- Witness for claim C4: the fifth consecutive empty rating fires the
rate-limit path with a 120-second cooldown and counter reset. -/
theorem rate_limit_behaviour_witness :
    rate_limit_check 4 "" "Cafe X"
      = { cnt := 0, rateLimited := true, cooldown := RATE_LIMIT_COOLDOWN } :=
  (rate_limit_behaviour.2 4 "" "Cafe X").2.2 rfl (by decide) (by decide)

/-- Claim C5: for every outcome of the inner navigation coroutine, the
page-fetch wrapper returns either the page content or the empty string,
and every timeout or navigation-error outcome yields the empty string;
no outcome escapes the wrapper as an exception. -/
theorem fetch_page_content_total :
    ∀ o : GotoOutcome,
      ((∃ c, o = GotoOutcome.ok c ∧ fetch_page_content o = c) ∨ fetch_page_content o = "") ∧
      fetch_page_content GotoOutcome.playwrightTimeout = "" ∧
      fetch_page_content GotoOutcome.asyncioTimeout = "" ∧
      fetch_page_content GotoOutcome.navError = "" := by
  intro o
  refine ⟨?_, rfl, rfl, rfl⟩
  cases o with
  | ok c => exact Or.inl ⟨c, rfl, rfl⟩
  | playwrightTimeout => exact Or.inr rfl
  | asyncioTimeout => exact Or.inr rfl
  | navError => exact Or.inr rfl

/-- Claim C6, counterexample: the candidate extracted from a text with a
00-prefixed international number keeps its leading 00 (it is not
normalized to a plus sign), and a candidate with only 6 digits but a
leading plus passes the length filter (the 7..15 bound counts the plus
character, not digits). -/
theorem phone_candidates_counterexample :
    ("0036301234567" ∈ phoneCandidates "tel: 0036 30 123 4567" ∧
      "0036301234567".data.take 2 = ['0', '0'] ∧
      "0036301234567".data.head? ≠ some '+') ∧
    ("+123456" ∈ phoneCandidates "tel: +1 2 3 4 5 6" ∧
      ("+123456".data.filter Char.isDigit).length = 6) := by
  decide

/-- Claim C6, amended: every phone candidate is a regex match from a
keyword window with all non-digit characters except a leading plus
stripped, kept only when the length of the cleaned string (counting the
leading plus if present) lies in 7..15, and then passed through the
06-to-+36 trunk normalization; there is no 00-to-plus normalization. -/
theorem phone_candidates_amended :
    ∀ (text c : String), c ∈ phoneCandidates text →
      ∃ b m, b ∈ blocksOf text.data ∧ m ∈ phoneFindAll b ∧
        7 ≤ (cleanPhone m).length ∧ (cleanPhone m).length ≤ 15 ∧
        c = normalize_hu (String.mk (cleanPhone m)) ∧
        ∀ x ∈ cleanPhone m, x.isDigit = true ∨ x = '+' := by
  intro text c hc
  unfold phoneCandidates at hc
  rw [List.mem_flatMap] at hc
  obtain ⟨b, hb, hc2⟩ := hc
  rw [List.mem_filterMap] at hc2
  obtain ⟨m, hm, heq⟩ := hc2
  have heq2 : (if 7 ≤ (cleanPhone m).length ∧ (cleanPhone m).length ≤ 15
      then some (normalize_hu (String.mk (cleanPhone m))) else none) = some c := heq
  split at heq2
  next hcond =>
    refine ⟨b, m, hb, hm, hcond.1, hcond.2, (Option.some.inj heq2).symm, ?_⟩
    intro x hx
    have hcls := (List.mem_filter.mp hx).2
    simpa using hcls
  next => exact absurd heq2 (by simp)

/-- Witness for the amended claim C6 at a concrete 00-prefixed text. -/
theorem phone_candidates_amended_witness :
    ("0036301234567" ∈ phoneCandidates "tel: 0036 30 123 4567") ∧
    (∃ b m, b ∈ blocksOf "tel: 0036 30 123 4567".data ∧ m ∈ phoneFindAll b ∧
      7 ≤ (cleanPhone m).length ∧ (cleanPhone m).length ≤ 15 ∧
      "0036301234567" = normalize_hu (String.mk (cleanPhone m)) ∧
      ∀ x ∈ cleanPhone m, x.isDigit = true ∨ x = '+') :=
  ⟨by decide,
   phone_candidates_amended "tel: 0036 30 123 4567" "0036301234567" (by decide)⟩

/-- Claim C7, counterexample: the address bcdfgh@test.org has a local
part of 6 characters containing no vowel, yet is_valid_email accepts it;
the cited validator has no vowel-based garbage filter. -/
theorem is_valid_email_counterexample :
    is_valid_email "bcdfgh@test.org" = true ∧
    "bcdfgh@test.org".data.takeWhile (fun c => c ≠ '@') = "bcdfgh".data ∧
    6 ≤ "bcdfgh".data.length ∧
    "bcdfgh".data.all (fun c => !(c == 'a' || c == 'e' || c == 'i' || c == 'o' || c == 'u'))
      = true := by
  decide

/-- Claim C7, amended: every accepted email has the shape
local-at-domain-dot-tld with a nonempty local part of regex characters, a
nonempty domain stem, a TLD of at least two letters (hence a domain of at
least 4 characters), contains no path-like or query-like character,
contains exactly one at sign, and contains no placeholder pattern;
legitimate-shaped addresses such as info@acme.com are accepted while the
placeholder-domain info@example.com is rejected; no vowel filter is
applied, so vowel-less local parts of 6 or more characters are
accepted. -/
theorem is_valid_email_amended :
    (∀ email : String, is_valid_email email = true →
      (∃ loc d tld : List Char,
          (stripChars email.data).map Char.toLower = loc ++ '@' :: (d ++ '.' :: tld) ∧
          loc ≠ [] ∧ loc.all isLocalChar = true ∧ d ≠ [] ∧ 2 ≤ tld.length ∧
          4 ≤ (d ++ '.' :: tld).length) ∧
      (∀ ch ∈ ['?', '&', '/', '=', ' '],
          ((stripChars email.data).map Char.toLower).contains ch = false) ∧
      (splitOnChar '@' ((stripChars email.data).map Char.toLower)).length = 2 ∧
      (∀ p ∈ invalidEmailPatterns,
          containsSub ((stripChars email.data).map Char.toLower) p.data = false)) ∧
    is_valid_email "info@acme.com" = true ∧
    is_valid_email "info@example.com" = false ∧
    is_valid_email "bcdfgh@acme.org" = true := by
  refine ⟨?_, by decide, by decide, by decide⟩
  intro email h
  simp only [is_valid_email] at h
  split at h
  next hregex => exact absurd h (by simp)
  next hregex =>
    split at h
    next hbad => exact absurd h (by simp)
    next hbad =>
      split at h
      next hpat => exact absurd h (by simp)
      next hpat =>
        split at h
        next loc dom heq =>
          have hreg : emailRegexOK ((stripChars email.data).map Char.toLower) = true := by
            cases hcase : emailRegexOK ((stripChars email.data).map Char.toLower)
            · exact absurd (by rw [hcase]; rfl) hregex
            · rfl
          obtain ⟨loc2, d, tld, hdecomp, hlocne, hlocall, hdne, hdall, htall, htlen⟩ :=
            emailRegexOK_decomp _ hreg
          refine ⟨⟨loc2, d, tld, hdecomp, hlocne, hlocall, hdne, htlen, ?_⟩, ?_, ?_, ?_⟩
          · have hd1 : 0 < d.length := List.length_pos.mpr hdne
            rw [List.length_append, List.length_cons]
            omega
          · intro ch hch
            cases hcc : ((stripChars email.data).map Char.toLower).contains ch
            · rfl
            · exact absurd (List.any_eq_true.mpr ⟨ch, hch, hcc⟩) hbad
          · rw [heq]
            rfl
          · intro p hp
            cases hcc : containsSub ((stripChars email.data).map Char.toLower) p.data
            · rfl
            · exact absurd (List.any_eq_true.mpr ⟨p, hp, hcc⟩) hpat
        all_goals exact absurd h (by simp)

/-- Witness for the amended claim C7 at a concrete accepted address. -/
theorem is_valid_email_amended_witness :
    is_valid_email "info@acme.com" = true ∧
    (splitOnChar '@' ((stripChars "info@acme.com".data).map Char.toLower)).length = 2 :=
  ⟨by decide, (is_valid_email_amended.1 "info@acme.com" (by decide)).2.2.1⟩

/-- Claim C8: the email score orders info@x.com above noreply@x.com above
random@gmail.com, and for every non-empty candidate list get_best_email
returns a member of maximal score whose predecessors in the list all have
strictly smaller scores (ties are broken by first-seen order). -/
theorem get_best_email_spec :
    (emailScore "info@x.com" > emailScore "noreply@x.com" ∧
      emailScore "noreply@x.com" > emailScore "random@gmail.com") ∧
    ∀ es : List String, es ≠ [] →
      get_best_email es ∈ es ∧
      (∀ x ∈ es, emailScore x ≤ emailScore (get_best_email es)) ∧
      ∃ p s, es = p ++ get_best_email es :: s ∧
        ∀ x ∈ p, emailScore x < emailScore (get_best_email es) := by
  refine ⟨⟨by decide, by decide⟩, ?_⟩
  intro es h
  exact firstArgmax_spec es _ (firstArgmax_get_best_email es h)

/-- Witness for claim C8 at a concrete candidate list. -/
theorem get_best_email_spec_witness :
    get_best_email ["noreply@x.com", "info@x.com"] ∈ ["noreply@x.com", "info@x.com"] :=
  (get_best_email_spec.2 ["noreply@x.com", "info@x.com"] (by decide)).1

/-- Claim C9: reading the work-item list strips and drops blank lines and
deduplicates keeping the first occurrence: the result has no duplicates,
is a subsequence of the cleaned input (order preserved), contains exactly
the cleaned input elements, and lists them in strictly increasing order
of first occurrence. -/
theorem read_links_spec :
    ∀ lines : List String,
      (read_links lines).Nodup ∧
      List.Sublist (read_links lines) (cleanedLinks lines) ∧
      (∀ x, x ∈ read_links lines ↔ x ∈ cleanedLinks lines) ∧
      (read_links lines).Pairwise
        (fun a b => (cleanedLinks lines).indexOf a < (cleanedLinks lines).indexOf b) := by
  intro lines
  exact ⟨dedupeFirst_nodup _, dedupeFirst_sublist _,
    fun x => mem_dedupeFirst _ x, dedupeFirst_pairwise _⟩

/-- Claim C10: coordinate extraction from a URL always returns a pair
that is either two parsed values or two absent values, never a mixed
pair, and (being a total function) never raises. -/
theorem extract_coordinates_pair_shape :
    ∀ url : String,
      extract_coordinates_from_url url = (none, none) ∨
      ∃ lat lng : ℚ, extract_coordinates_from_url url = (some lat, some lng) := by
  intro url
  rcases hs : coordSearch url.data with _ | ⟨g1, g2⟩
  · exact Or.inl (by simp [extract_coordinates_from_url, hs])
  · rcases h1 : pyFloat g1 with _ | lat
    · exact Or.inl (by simp [extract_coordinates_from_url, hs, h1])
    · rcases h2 : pyFloat g2 with _ | lng
      · exact Or.inl (by simp [extract_coordinates_from_url, hs, h1, h2])
      · exact Or.inr ⟨lat, lng, by simp [extract_coordinates_from_url, hs, h1, h2]⟩
